import Mathlib

/-!
Verification of the animation/utility layer of the StartUpLandingPage
repository (`src/scripts/utils.js`, `src/scripts/animations.js`).

The JavaScript source is shallowly embedded: each function is translated
into an executable Lean definition over explicit state, and the claims of
the specification are settled as theorems about those definitions.

JavaScript numeric semantics that matter here (division by zero producing
NaN or Infinity, NaN comparisons being false) are modelled by the `JSNum`
type below; ordinary finite numbers are rationals.
-/

/-- IEEE-style JavaScript number: NaN, the two infinities, or a finite
value (modelled as a rational). -/
inductive JSNum where
  | nan : JSNum
  | inf : JSNum
  | negInf : JSNum
  | num : ℚ → JSNum
deriving DecidableEq

/-- JavaScript division of two finite numbers: `0/0 = NaN`,
`x/0 = ±Infinity` for `x ≠ 0`, otherwise exact rational division. -/
def jsDivQ (a b : ℚ) : JSNum :=
  if b = 0 then
    (if a = 0 then .nan else if 0 < a then .inf else .negInf)
  else .num (a / b)

/-- JavaScript `<` as a boolean: any comparison with NaN is false. -/
def jsLt : JSNum → JSNum → Bool
  | .nan, _ => false
  | _, .nan => false
  | .negInf, .negInf => false
  | .negInf, _ => true
  | _, .negInf => false
  | .inf, _ => false
  | .num _, .inf => true
  | .num a, .num b => decide (a < b)

/-- `Math.min` on two JS numbers: NaN-propagating, otherwise the smaller. -/
def jsMin (a b : JSNum) : JSNum :=
  match a, b with
  | .nan, _ => .nan
  | _, .nan => .nan
  | x, y => if jsLt x y then x else y

/-- JavaScript subtraction. -/
def jsSub : JSNum → JSNum → JSNum
  | .nan, _ => .nan
  | _, .nan => .nan
  | .inf, .inf => .nan
  | .inf, _ => .inf
  | .negInf, .negInf => .nan
  | .negInf, _ => .negInf
  | .num _, .inf => .negInf
  | .num _, .negInf => .inf
  | .num a, .num b => .num (a - b)

/-- JavaScript addition. -/
def jsAdd : JSNum → JSNum → JSNum
  | .nan, _ => .nan
  | _, .nan => .nan
  | .inf, .negInf => .nan
  | .negInf, .inf => .nan
  | .inf, _ => .inf
  | _, .inf => .inf
  | .negInf, _ => .negInf
  | _, .negInf => .negInf
  | .num a, .num b => .num (a + b)

/-- JavaScript multiplication (`±Infinity * 0 = NaN`). -/
def jsMul : JSNum → JSNum → JSNum
  | .nan, _ => .nan
  | _, .nan => .nan
  | .inf, .inf => .inf
  | .inf, .negInf => .negInf
  | .negInf, .inf => .negInf
  | .negInf, .negInf => .inf
  | .inf, .num b => if b = 0 then .nan else if 0 < b then .inf else .negInf
  | .num a, .inf => if a = 0 then .nan else if 0 < a then .inf else .negInf
  | .negInf, .num b => if b = 0 then .nan else if 0 < b then .negInf else .inf
  | .num a, .negInf => if a = 0 then .nan else if 0 < a then .negInf else .inf
  | .num a, .num b => .num (a * b)

/-- `Math.pow(x, 3)`. -/
def jsPow3 (x : JSNum) : JSNum := jsMul x (jsMul x x)

-- ===== association lists for object / style maps =====

/-- Lookup in an association list (JS property read). -/
def getAssoc : List (String × ℚ) → String → Option ℚ
  | [], _ => none
  | (q, w) :: rest, p => if q = p then some w else getAssoc rest p

/-- Update / insert in an association list (JS property write). -/
def setAssoc : List (String × ℚ) → String → ℚ → List (String × ℚ)
  | [], p, v => [(p, v)]
  | (q, w) :: rest, p, v =>
    if q = p then (p, v) :: rest else (q, w) :: setAssoc rest p v

-- ===== substring check (JS String.prototype.includes) =====

/-- Boolean list-prefix test. -/
def prefB : List Char → List Char → Bool
  | [], _ => true
  | _ :: _, [] => false
  | a :: as, b :: bs => a == b && prefB as bs

/-- Boolean sublist-of-consecutive-elements test. -/
def hasSub (pat : List Char) : List Char → Bool
  | [] => prefB pat []
  | b :: bs => prefB pat (b :: bs) || hasSub pat bs

/-- `s.includes(pat)` for JS strings. -/
def strHas (pat s : String) : Bool := hasSub pat.toList s.toList

-- ===== debounce (src/scripts/utils.js lines 20-32) =====

/-- State of the closure returned by `debounce`: the pending timeout (its
fire time), and the execution times of `func` recorded so far. -/
structure DbState where
  pending : Option ℕ
  execs : List ℕ
deriving DecidableEq

/-- Fire the pending timer if it is due at or before time `t`.  The timer
body is `later`: it nulls `timeout` and, when `immediate` is false, runs
`func` (recorded by appending the fire time). -/
def dbFire (imm : Bool) (s : DbState) (t : ℕ) : DbState :=
  match s.pending with
  | some ft =>
    if ft ≤ t then
      { pending := none, execs := if imm then s.execs else s.execs ++ [ft] }
    else s
  | none => s

/-- One invocation of the debounced wrapper at time `t`:
`callNow = immediate && !timeout`; `clearTimeout(timeout)`;
`timeout = setTimeout(later, wait)`; `if (callNow) func(...)`. -/
def dbStep (w : ℕ) (imm : Bool) (s : DbState) (t : ℕ) : DbState :=
  let s1 := dbFire imm s t
  let callNow := imm && s1.pending.isNone
  { pending := some (t + w),
    execs := if callNow then s1.execs ++ [t] else s1.execs }

/-- After the last invocation, a still-pending timer eventually fires. -/
def dbFinish (imm : Bool) (s : DbState) : List ℕ :=
  match s.pending with
  | some ft => if imm then s.execs else s.execs ++ [ft]
  | none => s.execs

/-- Execution times of `func` produced by calling the wrapper returned by
`debounce(func, w, imm)` at each time in `calls` (times in ascending
order, as delivered by the event loop). -/
def debounceRun (w : ℕ) (imm : Bool) (calls : List ℕ) : List ℕ :=
  dbFinish imm (calls.foldl (dbStep w imm) ⟨none, []⟩)

/-- Expected trailing-edge execution times: each call that is not followed
within `w` milliseconds by another call fires at its time plus `w`. -/
def trailingTimes (w : ℕ) : List ℕ → List ℕ
  | [] => []
  | [c] => [c + w]
  | c :: c2 :: rest =>
    if c2 < c + w then trailingTimes w (c2 :: rest)
    else (c + w) :: trailingTimes w (c2 :: rest)

-- ===== throttle (src/scripts/utils.js lines 49-58) =====

/-- State of the closure returned by `throttle`: the `inThrottle` flag,
the pending timeout (fire time), and recorded execution times. -/
structure ThrState where
  inThrottle : Bool
  timer : Option ℕ
  execs : List ℕ
deriving DecidableEq

/-- Fire the pending timer if due.  The source's timer callback is
`() => inThrottle - false`: it evaluates a subtraction and discards the
result, so `inThrottle` is left unchanged. -/
def thrFire (s : ThrState) (t : ℕ) : ThrState :=
  match s.timer with
  | some ft => if ft ≤ t then { s with timer := none } else s
  | none => s

/-- One invocation of the throttled wrapper at time `t`. -/
def thrStep (limit : ℕ) (s : ThrState) (t : ℕ) : ThrState :=
  let s1 := thrFire s t
  if !s1.inThrottle then
    { inThrottle := true, timer := some (t + limit), execs := s1.execs ++ [t] }
  else s1

/-- Execution times of `func` produced by calling the wrapper returned by
`throttle(func, limit)` at each time in `calls`. -/
def throttleRun (limit : ℕ) (calls : List ℕ) : List ℕ :=
  (calls.foldl (thrStep limit) ⟨false, none, []⟩).execs

-- ===== IntersectionObserver callback (src/scripts/animations.js 63-71) =====

/-- An `IntersectionObserverEntry` as delivered by the DOM primitive: its
interface exposes `isIntersecting` and `target` (elements are identified
by a natural number). -/
structure IOEntry where
  isIntersecting : Bool
  target : ℕ
deriving DecidableEq

/-- JS property read of a boolean property on an entry: the DOM interface
defines `isIntersecting`; reading any other name yields `undefined`
(modelled as `none`). -/
def IOEntry.getBool (e : IOEntry) (name : String) : Option Bool :=
  if name = "isIntersecting" then some e.isIntersecting else none

/-- JS truthiness of a possibly-undefined boolean: `undefined` is falsy. -/
def jsTruthy : Option Bool → Bool
  | some b => b
  | none => false

/-- Observer-side state of the `AnimationManager`: the `animatedElements`
set and the recorded calls to `this.animatedElement` (the playback path,
kept abstract: only the fact of its invocation matters here). -/
structure ObserverState where
  animatedElements : List ℕ
  invocations : List ℕ
deriving DecidableEq

/-- Processing of one entry by the observer callback.  The source tests
`entry.isIntersection && !this.animatedElements.has(entry.target)` — note
the property name it reads is `isIntersection` — and, when the test
passes, calls `this.animatedElement(entry.target)` and adds the target to
`animatedElements`. -/
def observerCallbackStep (s : ObserverState) (entry : IOEntry) : ObserverState :=
  if jsTruthy (entry.getBool "isIntersection")
      && !(s.animatedElements.contains entry.target) then
    { animatedElements := entry.target :: s.animatedElements,
      invocations := s.invocations ++ [entry.target] }
  else s

/-- The observer callback: `entries.forEach(entry => ...)`. -/
def observerCallback (s : ObserverState) (entries : List IOEntry) : ObserverState :=
  entries.foldl observerCallbackStep s

-- ===== removeEventListnerSafe (src/scripts/utils.js 111-120) =====

/-- A JS error raised by the engine (here only `TypeError`). -/
inductive JSError where
  | typeError : JSError
deriving DecidableEq

/-- A DOM event target: its attached listeners, as (event, handler id). -/
structure EvtTarget where
  listeners : List (String × ℕ)
deriving DecidableEq

/-- JS method call by name on a DOM event target.  The `EventTarget`
interface defines `addEventListener` and `removeEventListener`; looking up
any other name yields `undefined`, and calling `undefined` throws a
`TypeError`. -/
def callTargetMethod (t : EvtTarget) (name : String) (ev : String) (h : ℕ) :
    Except JSError EvtTarget :=
  if name = "addEventListener" then .ok ⟨t.listeners ++ [(ev, h)]⟩
  else if name = "removeEventListener" then
    .ok ⟨t.listeners.filter (fun x => !(x.1 = ev && x.2 = h))⟩
  else .error .typeError

/-- `removeEventListnerSafe(element, event, handler)`: inside a
`try`/`catch`, when the element exists and the handler is a function
(`some`), the source calls `el.removeEventListner(event, handler)` — note
the method name it invokes.  A thrown error is caught and logged, leaving
the target unchanged; the function itself always returns normally. -/
def removeEventListnerSafe (element : Option EvtTarget) (event : String)
    (handler : Option ℕ) : Option EvtTarget :=
  match element, handler with
  | some el, some h =>
    match callTargetMethod el "removeEventListner" event h with
    | .ok el2 => some el2
    | .error _ => some el
  | _, _ => element

-- ===== animate (src/scripts/utils.js 334-382) =====

/-- A DOM element as `animate` sees it: its (computed) style map. -/
structure Elem where
  style : List (String × ℚ)
deriving DecidableEq

/-- The in-flight animation task: duration and, per property, the start
value read from the computed style and the target value. -/
structure AnimTask where
  duration : ℚ
  props : List (String × ℚ × ℚ)
deriving DecidableEq

/-- Outcome of the `animate` promise executor: the executor threw (the
promise rejects), resolved synchronously with no frame scheduled, or
called `requestAnimationFrame(animationStep)` with the given task. -/
inductive AnimateOutcome where
  | rejected : AnimateOutcome
  | immediate : Option Elem → AnimateOutcome
  | scheduled : AnimTask → AnimateOutcome
deriving DecidableEq

/-- The property-assignment loop of the early branch:
`Object.keys(properties).forEach(prop => element.style[prop] = ...)` —
dereferencing `element` throws a `TypeError` when it is `null`. -/
def applyAll : Option Elem → List (String × ℚ) → Except JSError (Option Elem)
  | el, [] => .ok el
  | none, _ :: _ => .error .typeError
  | some el, (p, v) :: rest => applyAll (some ⟨setAssoc el.style p v⟩) rest

/-- `animate(element, properties, duration)` under a given value of
`prefersReducedMotion()`: the branch `if (!element || prefersReducedMotion())`
assigns every target value and resolves; otherwise start values are read
as `parseFloat(getComputedStyle(element)[prop]) || 0` and a first
animation frame is scheduled. -/
def animate : Option Elem → List (String × ℚ) → ℚ → Bool → AnimateOutcome
  | none, props, _, _ =>
    match applyAll none props with
    | .ok el => .immediate el
    | .error _ => .rejected
  | some el, props, _, true =>
    match applyAll (some el) props with
    | .ok el2 => .immediate el2
    | .error _ => .rejected
  | some el, props, d, false =>
    .scheduled
      { duration := d,
        props := props.map (fun pv => (pv.1, (getAssoc el.style pv.1).getD 0, pv.2)) }

/-- `if (!startTime) startTime = currentTime`: in JS both `null` and `0`
are falsy, so an unset or zero start time is replaced by the current
frame timestamp. -/
def stepStart : Option ℚ → ℚ → ℚ
  | none, c => c
  | some v, c => if v = 0 then c else v

/-- `progress = Math.min(timeElapsed / duration, 1)`. -/
def stepProgress (duration timeElapsed : ℚ) : JSNum :=
  jsMin (jsDivQ timeElapsed duration) (.num 1)

/-- `easedProgress = 1 - Math.pow(1 - progress, 3)`. -/
def easedOf (p : JSNum) : JSNum :=
  jsSub (.num 1) (jsPow3 (jsSub (.num 1) p))

/-- `currentValue = startValue + (endValue - startValue) * easedProgress`. -/
def propWrite (eased : JSNum) (sv ev : ℚ) : JSNum :=
  jsAdd (.num sv) (jsMul (.num (ev - sv)) eased)

/-- Result of one `animationStep` frame: the style writes (value plus the
`''`-or-`'px'` suffix from `prop.includes('opacity')`), whether the
promise was resolved (`progress < 1` is false), the computed progress, and
the `startTime` after the frame. -/
structure StepResult where
  writes : List (String × JSNum × String)
  resolved : Bool
  progress : JSNum
  startTimeAfter : ℚ
deriving DecidableEq

/-- One frame of the animation loop (`animationStep(currentTime)`). -/
def animationStep (t : AnimTask) (startTime : Option ℚ) (currentTime : ℚ) :
    StepResult :=
  { writes := t.props.map (fun pv =>
      (pv.1,
       propWrite
         (easedOf (stepProgress t.duration (currentTime - stepStart startTime currentTime)))
         pv.2.1 pv.2.2,
       if strHas "opacity" pv.1 then "" else "px")),
    resolved :=
      !(jsLt (stepProgress t.duration (currentTime - stepStart startTime currentTime))
        (.num 1)),
    progress := stepProgress t.duration (currentTime - stepStart startTime currentTime),
    startTimeAfter := stepStart startTime currentTime }

/-- The frame loop driven by a list of frame timestamps: each frame either
resolves the promise (no further frames) or re-schedules.  Returns the
per-frame writes and whether the promise resolved within the given
frames. -/
def runAnimation (t : AnimTask) :
    Option ℚ → List ℚ → List (List (String × JSNum × String)) × Bool
  | _, [] => ([], false)
  | st0, c :: cs =>
    let r := animationStep t st0 c
    if r.resolved then ([r.writes], true)
    else ((r.writes) :: (runAnimation t (some r.startTimeAfter) cs).1,
          (runAnimation t (some r.startTimeAfter) cs).2)

-- ===== ease (src/scripts/utils.js 184-189) and smooth-scroll easing =====

/-- The `ease(t, b, c, d)` helper of `smoothScrollTo`:
`t /= d / 2; if (t < 1) return c / 2 * t * t + b;
t--; return -c / 2 * (t * (t - 2) - 1) + b;`. -/
def ease (t b c d : ℚ) : ℚ :=
  if t / (d / 2) < 1 then
    c / 2 * (t / (d / 2)) * (t / (d / 2)) + b
  else
    -c / 2 * ((t / (d / 2) - 1) * ((t / (d / 2) - 1) - 2) - 1) + b

/-- The easing normalized as in the spec: `b = 0`, `c = 1`, `d = 1`. -/
def quadInOut (t : ℚ) : ℚ := ease t 0 1 1

/-- The spec's formula for quadratic in/out easing:
`2t²` for `t < 0.5`, `1 - 2(1-t)²` otherwise. -/
def quadInOutSpec (t : ℚ) : ℚ :=
  if t < 1 / 2 then 2 * t ^ 2 else 1 - 2 * (1 - t) ^ 2

-- ===== helper lemmas =====

lemma dbRun_tail (w : ℕ) : ∀ (rest : List ℕ) (c : ℕ) (E : List ℕ),
    dbFinish false (rest.foldl (dbStep w false) ⟨some (c + w), E⟩)
      = E ++ trailingTimes w (c :: rest) := by
  intro rest
  induction rest with
  | nil => intro c E; simp [dbFinish, trailingTimes]
  | cons c2 r ih =>
    intro c E
    simp only [List.foldl_cons]
    by_cases h : c + w ≤ c2
    · have hstep : dbStep w false ⟨some (c + w), E⟩ c2
          = ⟨some (c2 + w), E ++ [c + w]⟩ := by
        simp [dbStep, dbFire, h]
      rw [hstep, ih]
      have hn : ¬ c2 < c + w := not_lt.mpr h
      simp [trailingTimes, hn]
    · have hstep : dbStep w false ⟨some (c + w), E⟩ c2 = ⟨some (c2 + w), E⟩ := by
        simp [dbStep, dbFire, h]
      rw [hstep, ih]
      have hlt : c2 < c + w := not_le.mp h
      simp [trailingTimes, hlt]

lemma thrFire_inThrottle (s : ThrState) (t : ℕ) :
    (thrFire s t).inThrottle = s.inThrottle := by
  unfold thrFire
  cases s.timer with
  | none => rfl
  | some ft => by_cases h : ft ≤ t <;> simp [h]

lemma thrFire_execs (s : ThrState) (t : ℕ) : (thrFire s t).execs = s.execs := by
  unfold thrFire
  cases s.timer with
  | none => rfl
  | some ft => by_cases h : ft ≤ t <;> simp [h]

lemma thr_stays (limit : ℕ) : ∀ (cs : List ℕ) (s : ThrState),
    s.inThrottle = true →
    (cs.foldl (thrStep limit) s).execs = s.execs ∧
    (cs.foldl (thrStep limit) s).inThrottle = true := by
  intro cs
  induction cs with
  | nil => intro s h; exact ⟨rfl, h⟩
  | cons t r ih =>
    intro s h
    have hstep : thrStep limit s t = thrFire s t := by
      unfold thrStep
      simp [thrFire_inThrottle, h]
    rw [List.foldl_cons, hstep]
    have h2 : (thrFire s t).inThrottle = true := by rw [thrFire_inThrottle s t, h]
    rcases ih (thrFire s t) h2 with ⟨he, hi⟩
    exact ⟨by rw [he, thrFire_execs], hi⟩

lemma observerStep_noop (s : ObserverState) (e : IOEntry) :
    observerCallbackStep s e = s := by
  have h : jsTruthy (e.getBool "isIntersection") = false := rfl
  unfold observerCallbackStep
  rw [h]
  simp

lemma observerCallback_noop : ∀ (entries : List IOEntry) (s : ObserverState),
    observerCallback s entries = s := by
  intro entries
  induction entries with
  | nil => intro s; rfl
  | cons e r ih =>
    intro s
    show (e :: r).foldl observerCallbackStep s = s
    rw [List.foldl_cons, observerStep_noop]
    exact ih s

lemma observerStep_animated_mem {e : ℕ} {s : ObserverState} (entry : IOEntry)
    (h : e ∈ s.animatedElements) :
    e ∈ (observerCallbackStep s entry).animatedElements := by
  unfold observerCallbackStep
  split
  · exact List.mem_cons_of_mem _ h
  · exact h

lemma observerStep_filter {e : ℕ} {s : ObserverState} (entry : IOEntry)
    (h : e ∈ s.animatedElements) :
    (observerCallbackStep s entry).invocations.filter (fun x => decide (x = e))
      = s.invocations.filter (fun x => decide (x = e)) := by
  unfold observerCallbackStep
  split
  case isTrue hcond =>
    have hc : s.animatedElements.contains entry.target = false := by
      rcases Bool.and_eq_true_iff.mp hcond with ⟨_, hnc⟩
      simpa using hnc
    have hnotmem : entry.target ∉ s.animatedElements := by
      simp at hc
      exact hc
    have hne : entry.target ≠ e := fun hEq => hnotmem (hEq ▸ h)
    simp [List.filter_append, hne]
  case isFalse _ => rfl

lemma observerCallback_idem : ∀ (entries : List IOEntry) (s : ObserverState) (e : ℕ),
    e ∈ s.animatedElements →
    e ∈ (observerCallback s entries).animatedElements ∧
    (observerCallback s entries).invocations.filter (fun x => decide (x = e))
      = s.invocations.filter (fun x => decide (x = e)) := by
  intro entries
  induction entries with
  | nil => intro s e h; exact ⟨h, rfl⟩
  | cons en r ih =>
    intro s e h
    have hstep : observerCallback s (en :: r)
        = observerCallback (observerCallbackStep s en) r := by
      simp [observerCallback]
    rw [hstep]
    have h1 := observerStep_animated_mem en h
    rcases ih (observerCallbackStep s en) e h1 with ⟨hm, hf⟩
    exact ⟨hm, by rw [hf, observerStep_filter en h]⟩

-- ===== claims =====

/-- C1: the claim says that when the viewport-intersection primitive
reports an element as intersecting and that element has not yet been
recorded as triggered, the observer callback invokes the element's
one-shot animation and records it.  The code instead reads the
nonexistent property `entry.isIntersection` (the DOM property is
`isIntersecting`), which is `undefined`, hence falsy: the callback never
invokes the animation and never records anything — here evaluated at an
intersecting, untriggered element, and shown to be a global no-op. -/
theorem c1_observer_never_triggers :
    observerCallback ⟨[], []⟩ [⟨true, 5⟩] = ⟨[], []⟩ ∧
    ∀ (s : ObserverState) (entries : List IOEntry),
      observerCallback s entries = s := by
  refine ⟨?_, fun s entries => observerCallback_noop entries s⟩
  exact observerCallback_noop [⟨true, 5⟩] ⟨[], []⟩

/-- C2: the claim says the throttled wrapper fires again for the first
call after each `limit`-millisecond window.  The code's timeout callback
is `() => inThrottle - false` — a subtraction, not an assignment — so
`inThrottle` is never reset: only the very first call ever executes.
Evaluated at calls `t = 0` and `t = 200` with `limit = 100` (the second
call is past the window yet does not fire), and in general. -/
theorem c2_throttle_only_first_call_fires :
    throttleRun 100 [0, 200] = [0] ∧
    ∀ (limit c : ℕ) (cs : List ℕ), throttleRun limit (c :: cs) = [c] := by
  refine ⟨by decide, ?_⟩
  intro limit c cs
  show ((c :: cs).foldl (thrStep limit) ⟨false, none, []⟩).execs = [c]
  have h0 : thrStep limit ⟨false, none, []⟩ c = ⟨true, some (c + limit), [c]⟩ := by
    simp [thrStep, thrFire]
  rw [List.foldl_cons, h0]
  exact (thr_stays limit cs ⟨true, some (c + limit), [c]⟩ rfl).1

/-- C5: once an element is in the `animatedElements` set, a subsequent
dispatch of the visibility event for it does not invoke the playback path
again, and the element stays recorded: for any entries processed by the
observer callback, the invocations of an already-triggered element are
unchanged and its membership in the set is preserved. -/
theorem c5_triggered_element_never_replays (s : ObserverState)
    (entries : List IOEntry) (e : ℕ) (h : e ∈ s.animatedElements) :
    e ∈ (observerCallback s entries).animatedElements ∧
    (observerCallback s entries).invocations.filter (fun x => decide (x = e))
      = s.invocations.filter (fun x => decide (x = e)) :=
  observerCallback_idem entries s e h

/-- Witness for C5 at a concrete state: element 5 already triggered, one
more intersecting entry for it arrives. -/
theorem c5_triggered_element_never_replays_witness :
    5 ∈ ObserverState.animatedElements ⟨[5], []⟩ ∧
    (5 ∈ (observerCallback ⟨[5], []⟩ [⟨true, 5⟩]).animatedElements ∧
     (observerCallback ⟨[5], []⟩ [⟨true, 5⟩]).invocations.filter
        (fun x => decide (x = 5))
       = (ObserverState.invocations ⟨[5], []⟩).filter (fun x => decide (x = 5))) :=
  ⟨by decide, c5_triggered_element_never_replays ⟨[5], []⟩ [⟨true, 5⟩] 5 (by decide)⟩

/-- C7: the claim says `removeEventListnerSafe` removes the handler from
an existing target.  The code invokes `el.removeEventListner` — a
misspelling of `removeEventListener`, hence `undefined` — so the call
throws a `TypeError` that the surrounding `catch` swallows: the handler
is never removed (the absent-target no-op and the never-throws parts do
hold; the model is a total function whose catch branch returns the target
unchanged). -/
theorem c7_remove_listener_leaves_handler_attached :
    removeEventListnerSafe (some ⟨[("click", 1)]⟩) "click" (some 1)
      = some ⟨[("click", 1)]⟩ ∧
    removeEventListnerSafe none "click" (some 1) = none ∧
    ∀ (el : EvtTarget) (ev : String) (h : ℕ),
      removeEventListnerSafe (some el) ev (some h) = some el := by
  refine ⟨by decide, rfl, ?_⟩
  intro el ev h
  have hcall : callTargetMethod el "removeEventListner" ev h
      = .error .typeError := rfl
  unfold removeEventListnerSafe
  simp [hcall]

/-- C8: debounce with `wait = 200`, `immediate = false` and calls at
`t = 0, 50, 100` executes `fn` exactly once, at `t = 300`; in general the
trailing-edge wrapper fires exactly once per quiet period: at `c + w` for
each call `c` not followed by another call within `w` milliseconds. -/
theorem c8_debounce_trailing :
    debounceRun 200 false [0, 50, 100] = [300] ∧
    ∀ (w : ℕ) (calls : List ℕ), debounceRun w false calls = trailingTimes w calls := by
  constructor
  · decide
  · intro w calls
    cases calls with
    | nil => rfl
    | cons c rest =>
      show dbFinish false ((c :: rest).foldl (dbStep w false) ⟨none, []⟩) = _
      have h0 : dbStep w false ⟨none, []⟩ c = ⟨some (c + w), []⟩ := by
        simp [dbStep, dbFire]
      rw [List.foldl_cons, h0]
      simpa using dbRun_tail w rest c []
-- ===== C3 / C6: the early branch of animate =====

/-- C3: the claim says an operation given a missing target — in
particular `animate(null, properties, duration)` — degrades to a logged
no-op and never throws or propagates an error.  With a `null` element the
guard `if (!element || prefersReducedMotion())` takes the early branch,
which then executes `element.style[prop] = properties[prop]`: a `null`
dereference, so the promise executor throws a `TypeError` and the promise
rejects — for any non-empty property set and either reduced-motion
value. -/
theorem c3_animate_null_rejects :
    animate none [("opacity", 1)] 300 true = .rejected ∧
    animate none [("opacity", 1)] 300 false = .rejected ∧
    ∀ (rm : Bool) (d : ℚ) (p : String) (v : ℚ) (rest : List (String × ℚ)),
      animate none ((p, v) :: rest) d rm = .rejected :=
  ⟨rfl, rfl, fun _ _ _ _ _ => rfl⟩

/-- The fold the early branch performs on an existing element. -/
def applyFold (el : Elem) (props : List (String × ℚ)) : Elem :=
  props.foldl (fun e pv => ⟨setAssoc e.style pv.1 pv.2⟩) el

lemma applyAll_some : ∀ (props : List (String × ℚ)) (el : Elem),
    applyAll (some el) props = .ok (some (applyFold el props)) := by
  intro props
  induction props with
  | nil => intro el; rfl
  | cons pv rest ih =>
    intro el
    obtain ⟨p, v⟩ := pv
    show applyAll (some ⟨setAssoc el.style p v⟩) rest = _
    rw [ih]
    rfl

lemma getAssoc_set_self (l : List (String × ℚ)) (p : String) (v : ℚ) :
    getAssoc (setAssoc l p v) p = some v := by
  induction l with
  | nil => simp [setAssoc, getAssoc]
  | cons qw rest ih =>
    obtain ⟨q, w⟩ := qw
    by_cases h : q = p
    · simp [setAssoc, getAssoc, h]
    · simp [setAssoc, getAssoc, h, ih]

lemma getAssoc_set_ne (l : List (String × ℚ)) (p q : String) (v : ℚ)
    (h : q ≠ p) : getAssoc (setAssoc l q v) p = getAssoc l p := by
  induction l with
  | nil => simp [setAssoc, getAssoc, h]
  | cons ab rest ih =>
    obtain ⟨a, b⟩ := ab
    by_cases ha : a = q
    · subst ha
      simp [setAssoc, getAssoc, h]
    · by_cases hap : a = p
      · simp [setAssoc, getAssoc, ha, hap, Ne.symm h]
      · simp [setAssoc, getAssoc, ha, hap, ih]

lemma applyFold_get_notmem : ∀ (props : List (String × ℚ)) (el : Elem) (p : String),
    p ∉ props.map Prod.fst →
    getAssoc (applyFold el props).style p = getAssoc el.style p := by
  intro props
  induction props with
  | nil => intro el p _; rfl
  | cons qw rest ih =>
    intro el p hnm
    obtain ⟨q, w⟩ := qw
    have hq : q ≠ p := by
      intro hEq
      exact hnm (by simp [hEq])
    have hr : p ∉ rest.map Prod.fst := fun hm => hnm (by simp [hm])
    show getAssoc (applyFold ⟨setAssoc el.style q w⟩ rest).style p = _
    rw [ih ⟨setAssoc el.style q w⟩ p hr]
    exact getAssoc_set_ne el.style p q w hq

lemma applyFold_get_mem : ∀ (props : List (String × ℚ)) (el : Elem) (p : String) (v : ℚ),
    (props.map Prod.fst).Nodup → (p, v) ∈ props →
    getAssoc (applyFold el props).style p = some v := by
  intro props
  induction props with
  | nil => intro el p v _ hmem; cases hmem
  | cons qw rest ih =>
    intro el p v hnd hmem
    obtain ⟨q, w⟩ := qw
    have hnd2 := hnd
    rw [List.map_cons, List.nodup_cons] at hnd2
    rcases List.mem_cons.mp hmem with heq | hmem2
    · obtain ⟨hp, hv⟩ := Prod.mk.injEq .. ▸ heq
      subst hp; subst hv
      show getAssoc (applyFold ⟨setAssoc el.style p v⟩ rest).style p = some v
      rw [applyFold_get_notmem rest ⟨setAssoc el.style p v⟩ p hnd2.1]
      exact getAssoc_set_self el.style p v
    · exact ih ⟨setAssoc el.style q w⟩ p v hnd2.2 hmem2

/-- C6: with reduced motion on and a non-null element, `animate` resolves
synchronously in the early branch with every target value applied to the
element's style, and no animation frame is scheduled (the outcome is
`immediate`, not `scheduled`). -/
theorem c6_reduced_motion_short_circuit (el : Elem) (props : List (String × ℚ))
    (d : ℚ) (hnd : (props.map Prod.fst).Nodup) :
    ∃ el2 : Elem, animate (some el) props d true = .immediate (some el2) ∧
      ∀ p v, (p, v) ∈ props → getAssoc el2.style p = some v := by
  refine ⟨applyFold el props, ?_, ?_⟩
  · show (match applyAll (some el) props with
      | .ok el2 => AnimateOutcome.immediate el2
      | .error _ => AnimateOutcome.rejected) = _
    rw [applyAll_some]
  · intro p v hmem
    exact applyFold_get_mem props el p v hnd hmem

/-- Witness for C6: reduced motion applied to a concrete element with
`{opacity: 1}` over 500ms. -/
theorem c6_reduced_motion_short_circuit_witness :
    (([("opacity", (1:ℚ))].map Prod.fst).Nodup) ∧
    (∃ el2 : Elem, animate (some ⟨[]⟩) [("opacity", 1)] 500 true
        = .immediate (some el2) ∧
      ∀ p v, (p, v) ∈ [("opacity", (1:ℚ))] → getAssoc el2.style p = some v) :=
  ⟨by decide, c6_reduced_motion_short_circuit ⟨[]⟩ [("opacity", 1)] 500 (by decide)⟩

-- ===== C4 / C9: duration edge cases of the animation frame loop =====

/-- A first frame with a zero duration computes `timeElapsed / duration
= 0 / 0 = NaN`, so `progress` is NaN; `progress < 1` is then false, and
the step resolves. -/
lemma zero_duration_first_frame (t : AnimTask) (c : ℚ) (h : t.duration = 0) :
    (animationStep t none c).resolved = true ∧
    (animationStep t none c).progress = .nan := by
  have h1 : stepProgress t.duration (c - stepStart none c) = .nan := by
    simp [stepStart, stepProgress, h, jsDivQ, jsMin]
  exact ⟨by simp [animationStep, h1, jsLt], by simp [animationStep, h1]⟩

/-- With a negative duration and a nonnegative elapsed time, `progress`
is a nonpositive rational, so `progress < 1` holds and the frame
re-schedules instead of resolving. -/
lemma negDuration_step (t : AnimTask) (st0 : Option ℚ) (c : ℚ)
    (hd : t.duration < 0) (he : 0 ≤ c - stepStart st0 c) :
    (animationStep t st0 c).resolved = false := by
  have hdne : t.duration ≠ 0 := ne_of_lt hd
  have hq : (c - stepStart st0 c) / t.duration ≤ 0 :=
    div_nonpos_iff.mpr (Or.inl ⟨he, hd.le⟩)
  have hlt : (c - stepStart st0 c) / t.duration < 1 := lt_of_le_of_lt hq one_pos
  have hprog : stepProgress t.duration (c - stepStart st0 c)
      = .num ((c - stepStart st0 c) / t.duration) := by
    unfold stepProgress jsDivQ
    rw [if_neg hdne]
    simp [jsMin, jsLt, hlt]
  simp [animationStep, hprog, jsLt, hlt]

lemma negDuration_run (t : AnimTask) (hd : t.duration < 0) :
    ∀ (frames : List ℚ) (st : ℚ), List.Chain' (· ≤ ·) (st :: frames) →
    (runAnimation t (some st) frames).2 = false := by
  intro frames
  induction frames with
  | nil => intro st _; rfl
  | cons c cs ih =>
    intro st hch
    rw [List.chain'_cons] at hch
    obtain ⟨hstc, hch2⟩ := hch
    have hsa : (animationStep t (some st) c).startTimeAfter
        = stepStart (some st) c := rfl
    have hss : stepStart (some st) c = if st = 0 then c else st := rfl
    have he : 0 ≤ c - stepStart (some st) c := by
      rw [hss]
      by_cases h0 : st = 0
      · simp [h0]
      · simp only [h0, if_false]
        linarith
    have hres := negDuration_step t (some st) c hd he
    have hch3 : List.Chain' (· ≤ ·) (stepStart (some st) c :: cs) := by
      rw [hss]
      by_cases h0 : st = 0
      · rw [if_pos h0]
        exact hch2
      · rw [if_neg h0]
        rw [List.chain'_cons'] at hch2 ⊢
        exact ⟨fun y hy => le_trans hstc (hch2.1 y hy), hch2.2⟩
    show (runAnimation t (some st) (c :: cs)).2 = false
    simp only [runAnimation, hres, Bool.false_eq_true, if_false]
    rw [hsa]
    exact ih (stepStart (some st) c) hch3

/-- C4 counterexample: the claim says a zero or negative duration
completes on the very next scheduled frame with `progress = 1`.  With
duration `0` the first frame's progress is NaN, not 1; with duration
`-300` the first frame does not complete at all (and the run is still
unresolved after many frames). -/
theorem c4_zero_negative_duration_counterexample :
    (animationStep ⟨0, [("value", 0, 1000)]⟩ none 100).progress = .nan ∧
    JSNum.nan ≠ JSNum.num 1 ∧
    (animationStep ⟨-300, [("opacity", 0, 1)]⟩ none 100).resolved = false ∧
    (runAnimation ⟨-300, [("opacity", 0, 1)]⟩ none [100, 116, 132, 1000000]).2
      = false := by
  refine ⟨?_, by decide, ?_, ?_⟩
  · norm_num [animationStep, stepProgress, stepStart, jsDivQ, jsMin]
  · norm_num [animationStep, stepProgress, stepStart, jsDivQ, jsMin, jsLt]
  · norm_num [runAnimation, animationStep, stepProgress, stepStart, jsDivQ, jsMin,
      jsLt, easedOf, jsSub, jsPow3, jsMul, jsAdd, propWrite]

/-- C4 as amended: `animate` performs no clamping of the duration.  A
zero duration does resolve on the very next scheduled frame, but with
`progress = NaN` (the `0/0` division) rather than `progress = 1`; a
negative duration never resolves — every frame re-schedules, for any
nondecreasing sequence of frame timestamps. -/
theorem c4_amended_duration_behavior :
    (∀ (t : AnimTask) (c : ℚ), t.duration = 0 →
      (animationStep t none c).resolved = true ∧
      (animationStep t none c).progress = .nan) ∧
    (∀ (t : AnimTask) (frames : List ℚ), t.duration < 0 →
      List.Chain' (· ≤ ·) frames → (runAnimation t none frames).2 = false) := by
  refine ⟨zero_duration_first_frame, ?_⟩
  intro t frames hd hch
  cases frames with
  | nil => rfl
  | cons c cs =>
    have he : 0 ≤ c - stepStart none c := by simp [stepStart]
    have hres := negDuration_step t none c hd he
    have hsa : (animationStep t none c).startTimeAfter = c := rfl
    show (runAnimation t none (c :: cs)).2 = false
    simp only [runAnimation, hres, Bool.false_eq_true, if_false]
    rw [hsa]
    exact negDuration_run t hd cs c hch

/-- Witness for C4 (amended) at concrete inputs: duration 0 resolving
with NaN progress on the first frame, and duration −300 not resolving
over a sorted frame sequence. -/
theorem c4_amended_duration_behavior_witness :
    ((AnimTask.mk 0 [("value", 0, 1000)]).duration = 0 ∧
     (animationStep ⟨0, [("value", 0, 1000)]⟩ none 100).resolved = true ∧
     (animationStep ⟨0, [("value", 0, 1000)]⟩ none 100).progress = .nan) ∧
    ((AnimTask.mk (-300) [("opacity", 0, 1)]).duration < 0 ∧
     List.Chain' (· ≤ ·) [(100:ℚ), 116, 132] ∧
     (runAnimation ⟨-300, [("opacity", 0, 1)]⟩ none [100, 116, 132]).2 = false) := by
  have hch : List.Chain' (· ≤ ·) [(100:ℚ), 116, 132] := by
    norm_num [List.chain'_cons]
  have hd : (AnimTask.mk (-300) [("opacity", 0, 1)]).duration < 0 := by norm_num
  refine ⟨⟨rfl, ?_, ?_⟩, ⟨hd, hch, ?_⟩⟩
  · exact (c4_amended_duration_behavior.1 ⟨0, [("value", 0, 1000)]⟩ 100 rfl).1
  · exact (c4_amended_duration_behavior.1 ⟨0, [("value", 0, 1000)]⟩ 100 rfl).2
  · exact c4_amended_duration_behavior.2 ⟨-300, [("opacity", 0, 1)]⟩
      [100, 116, 132] hd hch

/-- C9 counterexample: the claim says the animation ends with the exact
target value for every duration.  With duration `0` (`{value: 1000}`
from a start of 0), the run completes on its single frame but the value
written is NaN — `start + (end − start) * easedProgress` with a NaN
eased progress — not 1000. -/
theorem c9_zero_duration_counterexample :
    (runAnimation ⟨0, [("value", 0, 1000)]⟩ none [100]).2 = true ∧
    (runAnimation ⟨0, [("value", 0, 1000)]⟩ none [100]).1
      = [[("value", JSNum.nan, "px")]] ∧
    JSNum.nan ≠ JSNum.num 1000 := by
  refine ⟨?_, ?_, by decide⟩ <;>
    norm_num [runAnimation, animationStep, stepProgress, stepStart, jsDivQ, jsMin,
      jsLt, easedOf, jsSub, jsPow3, jsMul, jsAdd, propWrite, strHas, hasSub, prefB]

/-- C9 as amended: for every positive duration, the frame on which
`timeElapsed ≥ duration` clamps `progress` to exactly 1, the eased
progress is exactly 1, and every property is written as exactly its
target value (`start + (end − start) * 1`); that frame resolves the
promise. -/
theorem c9_amended_exact_end_values (t : AnimTask) (st c : ℚ)
    (hd : 0 < t.duration) (hst : 0 < st) (hc : t.duration ≤ c - st) :
    (animationStep t (some st) c).resolved = true ∧
    (animationStep t (some st) c).writes
      = t.props.map (fun pv => (pv.1, JSNum.num pv.2.2,
          if strHas "opacity" pv.1 then "" else "px")) := by
  have hst0 : st ≠ 0 := ne_of_gt hst
  have hstart : stepStart (some st) c = st := by simp [stepStart, hst0]
  have hdne : t.duration ≠ 0 := ne_of_gt hd
  have hprog : stepProgress t.duration (c - st) = .num 1 := by
    unfold stepProgress jsDivQ
    rw [if_neg hdne]
    have h1 : ¬ ((c - st) / t.duration < 1) := by
      rw [not_lt]
      exact (one_le_div hd).mpr hc
    simp [jsMin, jsLt, h1]
  have heased : easedOf (.num 1) = .num 1 := by
    norm_num [easedOf, jsSub, jsPow3, jsMul]
  have hwrite : ∀ sv ev : ℚ, propWrite (.num 1) sv ev = .num ev := by
    intro sv ev
    simp only [propWrite, jsAdd, jsMul, JSNum.num.injEq]
    ring
  constructor
  · norm_num [animationStep, hstart, hprog, jsLt]
  · simp [animationStep, hstart, hprog, heased, hwrite]

/-- Witness for C9 (amended): duration 300, start time 50, completing
frame at 350, animating `value` from 0 to 1000 — the write is exactly
`1000`. -/
theorem c9_amended_exact_end_values_witness :
    ((0:ℚ) < (AnimTask.mk 300 [("value", 0, 1000)]).duration ∧ (0:ℚ) < 50 ∧
     (AnimTask.mk 300 [("value", 0, 1000)]).duration ≤ 350 - 50) ∧
    ((animationStep ⟨300, [("value", 0, 1000)]⟩ (some 50) 350).resolved = true ∧
     (animationStep ⟨300, [("value", 0, 1000)]⟩ (some 50) 350).writes
       = [("value", (0:ℚ), (1000:ℚ))].map (fun pv => (pv.1, JSNum.num pv.2.2,
           if strHas "opacity" pv.1 then "" else "px"))) :=
  ⟨⟨by norm_num, by norm_num, by norm_num⟩,
   c9_amended_exact_end_values ⟨300, [("value", 0, 1000)]⟩ 50 350
     (by norm_num) (by norm_num) (by norm_num)⟩

-- ===== C10: the quadInOut easing =====

/-- C10: the `ease` helper of `smoothScrollTo`, normalized with `b = 0`,
`c = 1`, `d = 1`, coincides with the spec's quadratic in/out formula
(`2t²` below one half, `1 − 2(1−t)²` above), and in particular maps 0 to
0, ½ to ½ and 1 to 1. -/
theorem c10_quad_in_out_matches_spec :
    (∀ t : ℚ, quadInOut t = quadInOutSpec t) ∧
    quadInOut 0 = 0 ∧ quadInOut (1/2) = 1/2 ∧ quadInOut 1 = 1 := by
  have key : ∀ t : ℚ, quadInOut t = quadInOutSpec t := by
    intro t
    unfold quadInOut ease quadInOutSpec
    have hiff : (t / ((1:ℚ) / 2) < 1) ↔ (t < 1 / 2) := div_lt_one (by norm_num)
    by_cases h : t < 1 / 2
    · rw [if_pos (hiff.mpr h), if_pos h]
      field_simp
      ring
    · rw [if_neg (fun hc => h (hiff.mp hc)), if_neg h]
      field_simp
      ring
  refine ⟨key, ?_, ?_, ?_⟩ <;> rw [key] <;> norm_num [quadInOutSpec]
